import Mathlib

/-!
# go-allure-report: the Allure XML formatter

A shallow embedding of `allure-formatter.go` (`AllureReportXML` and `formatTime`)
together with machine-checked statements about the document it builds and the
bytes it writes.

Modelling conventions.

* Go strings are modelled by Lean `String`; indices and lengths count the units
  of the string.  The only index computation in the source is a search for the
  one-byte separator `/`, which is position-compatible with this reading on
  UTF-8 text.
* Byte slices, and everything that reaches the writer, are lists of bytes (natural
  numbers below `256`); a string is written as its UTF-8 bytes, and the room of a
  writer is counted in bytes.
* Go `int` is modelled by `Int` (times) or `Nat` (counters that only grow from `0`).
* Pointers that are either `nil` or freshly allocated are modelled by `Option`.
* `float64` arithmetic is modelled exactly: a finite non-negative double is a pair
  of a significand and a binary exponent, and every operation rounds the exact
  rational result to the nearest double, ties to even (IEEE 754 binary64).
* Library calls whose result is outside the repository (`runtime.Version`,
  `xml.MarshalIndent`, the `io.Writer` handed in by the caller) are parameters.
-/

namespace parser

/-- Modelled from the spec: the `parser` package is not part of the sources; the
result of a test is the enumeration PASS, FAIL, SKIP. -/
inductive Result where
  | PASS
  | FAIL
  | SKIP
  deriving DecidableEq, Repr

/-- Modelled from the spec: the `parser.Test` declaration is missing from the
sources; a test has a name, an elapsed time in milliseconds, a result and its
captured output lines. -/
structure Test where
  Name : String
  Time : Int
  Result : Result
  Output : List String
  deriving DecidableEq, Repr

/-- Modelled from the spec: the `parser.Package` declaration is missing from the
sources; a package has a name, a total elapsed time in milliseconds, a coverage
string (empty when not measured) and its tests in order. -/
structure Package where
  Name : String
  Time : Int
  CoveragePct : String
  Tests : List Test
  deriving DecidableEq, Repr

/-- Modelled from the spec: the `parser.Report` declaration is missing from the
sources; a report is the ordered sequence of its packages. -/
structure Report where
  Packages : List Package
  deriving DecidableEq, Repr

end parser

namespace Allure

/-! ## Output data model (lines 14-58 of the source) -/

/-- The reason why a test case was skipped (`AllureSkipMessage`). -/
structure AllureSkipMessage where
  Message : String
  deriving DecidableEq, Repr

/-- A key/value pair (`AllureProperty`). -/
structure AllureProperty where
  Name : String
  Value : String
  deriving DecidableEq, Repr

/-- Data of a failed test (`AllureFailure`); `Typ` is the source field `Type`. -/
structure AllureFailure where
  Message : String
  Typ : String
  Contents : String
  deriving DecidableEq, Repr

/-- A single test case with its result (`AllureTestCase`). -/
structure AllureTestCase where
  Classname : String
  Name : String
  Time : String
  SkipMessage : Option AllureSkipMessage
  Failure : Option AllureFailure
  deriving DecidableEq, Repr

/-- A single test suite (`AllureTestSuite`). -/
structure AllureTestSuite where
  Tests : Nat
  Failures : Nat
  Time : String
  Name : String
  Properties : List AllureProperty
  TestCases : List AllureTestCase
  deriving DecidableEq, Repr

/-- The document root (`AllureTestSuites`). -/
structure AllureTestSuites where
  Suites : List AllureTestSuite
  deriving DecidableEq, Repr

/-! ## `float64` and `fmt.Sprintf("%.3f", _)` -/

/-- Nearest integer to `num / den`, ties to the even neighbour. -/
def roundHalfEven (num den : Nat) : Nat :=
  let q := num / den
  let r := num % den
  if 2 * r < den then q
  else if den < 2 * r then q + 1
  else if q % 2 = 0 then q else q + 1

/-- Binary logarithm by repeated halving, at most `fuel` times. -/
def log2Fuel : Nat → Nat → Nat
  | 0, _ => 0
  | fuel + 1, n => if n < 2 then 0 else log2Fuel fuel (n / 2) + 1

/-- The number `k` with `2^k ≤ n < 2^(k+1)` for positive `n` (and `0` for `n = 0`). -/
def ilog2 (n : Nat) : Nat := log2Fuel n n

/-- The integer `l` with `2^l ≤ a / b < 2^(l+1)`, for positive `a` and `b`. -/
def floorLog2 (a b : Nat) : Int :=
  let l : Int := (ilog2 a : Int) - (ilog2 b : Int)
  if b * 2 ^ l.toNat ≤ a * 2 ^ (-l).toNat then l else l - 1

/-- A finite non-negative double: the value `mant * 2 ^ exp`. -/
structure F64 where
  mant : Nat
  exp : Int
  deriving DecidableEq, Repr

/-- Numerator of the value of a double over the denominator `F64.den`. -/
def F64.num (x : F64) : Nat := x.mant * 2 ^ x.exp.toNat

/-- Denominator of the value of a double, a power of two. -/
def F64.den (x : F64) : Nat := 2 ^ (-x.exp).toNat

/-- Round the non-negative rational `a / b` to the nearest double, ties to even:
the significand keeps 53 bits.  (The values reached from a 64-bit `int` divided by
`1000` are far from the subnormal and overflow ranges.) -/
def roundF64 (a b : Nat) : F64 :=
  if a = 0 then ⟨0, 0⟩
  else
    let e : Int := floorLog2 a b - 52
    ⟨roundHalfEven (a * 2 ^ (-e).toNat) (b * 2 ^ e.toNat), e⟩

/-- The conversion `float64(n)` of a non-negative integer. -/
def float64OfNat (n : Nat) : F64 := roundF64 n 1

/-- The quotient `x / 1000.0`. -/
def F64.divThousand (x : F64) : F64 := roundF64 x.num (x.den * 1000)

/-- The digit character of `d < 10`. -/
def digit (d : Nat) : Char := Char.ofNat (48 + d % 10)

/-- The result of `fmt.Sprintf("%.3f", x)` for a non-negative double: the exact value
is rounded to three decimals (ties to even), then printed as integer part, point and
exactly three fraction digits. -/
def sprintf3f (x : F64) : String :=
  let r := roundHalfEven (x.num * 1000) x.den
  Nat.repr (r / 1000) ++ "." ++ String.mk [digit (r % 1000 / 100), digit (r % 100 / 10), digit (r % 10)]

/-- The source function `formatTime` (lines 138-140):
`fmt.Sprintf("%.3f", float64(time)/1000.0)`. -/
def formatTime (time : Int) : String :=
  if time < 0 then "-" ++ sprintf3f (float64OfNat time.natAbs).divThousand
  else sprintf3f (float64OfNat time.natAbs).divThousand

/-! ## `strings.LastIndex` and `strings.Join` -/

/-- Index of the last occurrence of `c` in the list, or `-1`. -/
def lastIndexChars : List Char → Char → Int
  | [], _ => -1
  | x :: xs, c =>
    let r := lastIndexChars xs c
    if 0 ≤ r then r + 1 else if x = c then 0 else -1

/-- The library call `strings.LastIndex(s, sep)` for a one-character separator. -/
def stringsLastIndex (s : String) (c : Char) : Int := lastIndexChars s.data c

/-- The library call `strings.Join(elems, sep)`. -/
def stringsJoin (elems : List String) (sep : String) : String := sep.intercalate elems

/-- The slice expression `s[i:]`. -/
def sliceFrom (s : String) (i : Nat) : String := ⟨s.data.drop i⟩

/-! ## Building the document (lines 63-117 of the source) -/

/-- The execution environment: the value `runtime.Version()` reports, the same on
every call within one run. -/
structure Env where
  runtimeVersion : String
  deriving DecidableEq, Repr

/-- The class name of a package (lines 76-79): the text after the last `/`, or the
whole name. -/
def classnameOf (pkgName : String) : String :=
  let classname := pkgName
  let idx := stringsLastIndex classname '/'
  if idx > -1 ∧ idx < (pkgName.length : Int) then sliceFrom pkgName (idx + 1).toNat
  else classname

/-- One iteration of the loop over the tests of a package (lines 92-114). -/
def addTestCase (classname : String) (ts : AllureTestSuite) (test : parser.Test) :
    AllureTestSuite :=
  let testCase : AllureTestCase :=
    ⟨classname, test.Name, formatTime test.Time, none, none⟩
  let ts1 : AllureTestSuite :=
    if test.Result = parser.Result.FAIL then { ts with Failures := ts.Failures + 1 } else ts
  let testCase1 : AllureTestCase :=
    if test.Result = parser.Result.FAIL then
      { testCase with Failure := some ⟨"Failed", "", stringsJoin test.Output "\n"⟩ }
    else testCase
  let testCase2 : AllureTestCase :=
    if test.Result = parser.Result.SKIP then
      { testCase1 with SkipMessage := some ⟨stringsJoin test.Output "\n"⟩ }
    else testCase1
  { ts1 with TestCases := ts1.TestCases ++ [testCase2] }

/-- The variables that live across the iterations of the loop over the packages:
the suites collected so far, the current value of the parameter `goVersion`, and
the number of calls of `runtime.Version` made so far. -/
structure BuildState where
  suites : AllureTestSuites
  goVersion : String
  versionCalls : Nat
  deriving DecidableEq, Repr

/-- One iteration of the loop over the packages (lines 66-117). -/
def convertPackage (env : Env) (st : BuildState) (pkg : parser.Package) : BuildState :=
  let ts : AllureTestSuite :=
    ⟨pkg.Tests.length, 0, formatTime pkg.Time, pkg.Name, [], []⟩
  let classname := classnameOf pkg.Name
  let goVersion := if st.goVersion = "" then env.runtimeVersion else st.goVersion
  let versionCalls := if st.goVersion = "" then st.versionCalls + 1 else st.versionCalls
  let ts1 : AllureTestSuite :=
    { ts with Properties := ts.Properties ++ [⟨"go.version", goVersion⟩] }
  let ts2 : AllureTestSuite :=
    if pkg.CoveragePct ≠ "" then
      { ts1 with Properties :=
          ts1.Properties ++ [⟨"coverage.statements.pct", pkg.CoveragePct⟩] }
    else ts1
  let ts3 : AllureTestSuite := pkg.Tests.foldl (addTestCase classname) ts2
  ⟨⟨st.suites.Suites ++ [ts3]⟩, goVersion, versionCalls⟩

/-- The whole conversion loop, started from the empty document. -/
def buildState (env : Env) (report : parser.Report) (goVersion : String) : BuildState :=
  report.Packages.foldl (convertPackage env) ⟨⟨[]⟩, goVersion, 0⟩

/-- The document `suites` that `AllureReportXML` hands to the XML encoder. -/
def buildDocument (env : Env) (report : parser.Report) (goVersion : String) :
    AllureTestSuites :=
  (buildState env report goVersion).suites

/-! ## Writing the document (lines 119-136 of the source) -/

/-- The constant `xml.Header`. -/
def xmlHeader : String := "<?xml version=\"1.0\" encoding=\"UTF-8\"?>\n"

/-- The UTF-8 bytes of one character. -/
def utf8EncodeChar (c : Char) : List Nat :=
  let v := c.toNat
  if v ≤ 127 then [v]
  else if v ≤ 2047 then [192 + v / 64, 128 + v % 64]
  else if v ≤ 65535 then [224 + v / 4096, 128 + v / 64 % 64, 128 + v % 64]
  else [240 + v / 262144, 128 + v / 4096 % 64, 128 + v / 64 % 64, 128 + v % 64]

/-- The bytes of a string, the conversion `[]byte(s)`. -/
def utf8Bytes (s : String) : List Nat := s.data.flatMap utf8EncodeChar

/-- The `io.Writer` of the caller: the bytes it has accepted so far, and how many
more bytes it accepts before its writes start to fail (`none`: it never fails). -/
structure Sink where
  written : List Nat
  room : Option Nat
  deriving DecidableEq, Repr

/-- One call `w.Write(p)`: the sink afterwards, and whether the call failed.  A sink
without enough room takes the bytes that fit and reports an error. -/
def Sink.write (w : Sink) (p : List Nat) : Sink × Bool :=
  match w.room with
  | none => (⟨w.written ++ p, none⟩, false)
  | some k =>
    if p.length ≤ k then (⟨w.written ++ p, some (k - p.length)⟩, false)
    else (⟨w.written ++ p.take k, some 0⟩, true)

/-- A `bufio.Writer` on a sink: the bytes still held in its buffer.  The buffer
passes its bytes on in order; on a sink of the kind above the chunking of the
real buffer makes no difference to what the sink holds after `Flush`. -/
structure BufWriter where
  wr : Sink
  buf : List Nat
  deriving DecidableEq, Repr

/-- The constructor `bufio.NewWriter(w)`. -/
def BufWriter.new (w : Sink) : BufWriter := ⟨w, []⟩

/-- The call `WriteString`: append the bytes of the string to the buffer. -/
def BufWriter.writeString (b : BufWriter) (s : String) : BufWriter :=
  ⟨b.wr, b.buf ++ utf8Bytes s⟩

/-- The call `Write`: append the bytes to the buffer. -/
def BufWriter.write (b : BufWriter) (p : List Nat) : BufWriter := ⟨b.wr, b.buf ++ p⟩

/-- The call `WriteByte`: append one byte to the buffer. -/
def BufWriter.writeByte (b : BufWriter) (c : Nat) : BufWriter := ⟨b.wr, b.buf ++ [c]⟩

/-- The call `Flush`: pass the buffer to the sink; reports whether that failed. -/
def BufWriter.flush (b : BufWriter) : BufWriter × Bool :=
  let r := b.wr.write b.buf
  (⟨r.1, []⟩, r.2)

/-- What a call of `AllureReportXML` leaves behind: the error it returns (`none`
is `nil`), the sink, whether a write on the sink failed during the call, and how
often `runtime.Version` was called. -/
structure Outcome where
  err : Option String
  sink : Sink
  writeFailed : Bool
  versionCalls : Nat
  deriving DecidableEq, Repr

/-- The source function `AllureReportXML` (lines 62-136).  `marshal` stands for
`xml.MarshalIndent(suites, "", "\t")`; the byte `10` is the newline. -/
def AllureReportXML (env : Env) (marshal : AllureTestSuites → Except String (List Nat))
    (report : parser.Report) (noXMLHeader : Bool) (goVersion : String) (w : Sink) :
    Outcome :=
  let st := buildState env report goVersion
  match marshal st.suites with
  | Except.error err => ⟨some err, w, false, st.versionCalls⟩
  | Except.ok bytes =>
    let writer := BufWriter.new w
    let writer1 := if !noXMLHeader then writer.writeString xmlHeader else writer
    let writer2 := writer1.write bytes
    let writer3 := writer2.writeByte 10
    let flushed := writer3.flush
    ⟨none, flushed.1.wr, flushed.2, st.versionCalls⟩

/-! ## Closed forms used in the proofs -/

/-- The version written into the `go.version` property: the override when it is
given, the version of the environment otherwise. -/
def effectiveVersion (env : Env) (goVersion : String) : String :=
  if goVersion = "" then env.runtimeVersion else goVersion

/-- Closed form of the case the loop body builds from one test. -/
def caseOf (classname : String) (test : parser.Test) : AllureTestCase :=
  ⟨classname, test.Name, formatTime test.Time,
    if test.Result = parser.Result.SKIP then some ⟨stringsJoin test.Output "\n"⟩ else none,
    if test.Result = parser.Result.FAIL then
      some ⟨"Failed", "", stringsJoin test.Output "\n"⟩
    else none⟩

/-- Number of tests of a list whose result is FAIL. -/
def failCount (tests : List parser.Test) : Nat :=
  (tests.filter (fun t => t.Result = parser.Result.FAIL)).length

/-- Closed form of the properties of the suite of a package. -/
def propertiesOf (version : String) (pkg : parser.Package) : List AllureProperty :=
  if pkg.CoveragePct = "" then [⟨"go.version", version⟩]
  else [⟨"go.version", version⟩, ⟨"coverage.statements.pct", pkg.CoveragePct⟩]

/-- Closed form of the suite the loop builds from one package. -/
def suiteOf (version : String) (pkg : parser.Package) : AllureTestSuite :=
  ⟨pkg.Tests.length, failCount pkg.Tests, formatTime pkg.Time, pkg.Name,
    propertiesOf version pkg, pkg.Tests.map (caseOf (classnameOf pkg.Name))⟩

/-- Whether a sink takes `n` more bytes without failing. -/
def Sink.hasRoom (w : Sink) (n : Nat) : Prop :=
  match w.room with
  | none => True
  | some k => n ≤ k

/-- A number below `1000` written with three digits, padded with zeros on the left. -/
def zeroPad3 (n : Nat) : String :=
  String.mk (List.replicate (3 - (Nat.repr n).length) '0') ++ Nat.repr n

/-- The time text in the words of the specification: the numeral of the whole
seconds, a point, and the remaining milliseconds padded to three digits. -/
def specTimeText (ms : Nat) : String :=
  Nat.repr (ms / 1000) ++ "." ++ zeroPad3 (ms % 1000)

/-- A small environment for the examples. -/
def sampleEnv : Env := ⟨"go1.21.0"⟩

/-- A report with one package: a passing test, a failing test with two lines of
output, and a skipped test. -/
def sampleReport : parser.Report :=
  ⟨[⟨"pkg/sub", 750, "87.5",
      [⟨"TestA", 500, parser.Result.PASS, []⟩,
       ⟨"TestB", 250, parser.Result.FAIL, ["assertion failed", "at line 5"]⟩,
       ⟨"TestC", 0, parser.Result.SKIP, ["not today"]⟩]⟩]⟩

/-- A marshaller for the examples: it succeeds with a fixed body. -/
def sampleMarshal : AllureTestSuites → Except String (List Nat) :=
  fun _ => Except.ok (utf8Bytes "<testsuites></testsuites>")

/-- A marshaller for the examples that fails, as the encoder does on a value it
cannot encode. -/
def failingMarshal : AllureTestSuites → Except String (List Nat) :=
  fun _ => Except.error "xml: unsupported type"

/-- A writer that accepts no bytes: every write on it fails. -/
def fullSink : Sink := ⟨[], some 0⟩

/-- The report of the scenario of the specification: one package `pkg/sub` with
coverage `87.5`, a passing `TestA` (500 ms) and a failing `TestB` (250 ms) with two
lines of output; the elapsed time of the package is left open. -/
def scenarioReport (pkgTime : Int) : parser.Report :=
  ⟨[⟨"pkg/sub", pkgTime, "87.5",
      [⟨"TestA", 500, parser.Result.PASS, []⟩,
       ⟨"TestB", 250, parser.Result.FAIL, ["assertion failed", "at line 5"]⟩]⟩]⟩

/-! ## The loop in closed form -/

theorem addTestCase_eq (classname : String) (ts : AllureTestSuite) (test : parser.Test) :
    addTestCase classname ts test =
      { ts with
        Failures := ts.Failures + failCount [test]
        TestCases := ts.TestCases ++ [caseOf classname test] } := by
  cases hres : test.Result <;> simp [addTestCase, caseOf, failCount, hres]

theorem failCount_cons (t : parser.Test) (tests : List parser.Test) :
    failCount (t :: tests) = failCount [t] + failCount tests := by
  by_cases h : t.Result = parser.Result.FAIL <;> simp [failCount, h, Nat.add_comm]

theorem foldl_addTestCase (classname : String) (tests : List parser.Test) :
    ∀ ts : AllureTestSuite,
      tests.foldl (addTestCase classname) ts =
        { ts with
          Failures := ts.Failures + failCount tests
          TestCases := ts.TestCases ++ tests.map (caseOf classname) } := by
  induction tests with
  | nil => intro ts; simp [failCount]
  | cons t rest ih =>
    intro ts
    rw [List.foldl_cons, ih, addTestCase_eq, failCount_cons t rest]
    simp [Nat.add_assoc]

theorem convertPackage_suites (env : Env) (st : BuildState) (pkg : parser.Package) :
    (convertPackage env st pkg).suites.Suites =
      st.suites.Suites ++ [suiteOf (effectiveVersion env st.goVersion) pkg] := by
  by_cases hc : pkg.CoveragePct = "" <;>
    simp [convertPackage, foldl_addTestCase, suiteOf, propertiesOf, effectiveVersion, hc]

theorem convertPackage_goVersion (env : Env) (st : BuildState) (pkg : parser.Package) :
    (convertPackage env st pkg).goVersion = effectiveVersion env st.goVersion := by
  simp [convertPackage, effectiveVersion]

theorem effectiveVersion_idem (env : Env) (goVersion : String) :
    effectiveVersion env (effectiveVersion env goVersion) = effectiveVersion env goVersion := by
  unfold effectiveVersion
  by_cases h : goVersion = ""
  · by_cases h2 : env.runtimeVersion = "" <;> simp [h, h2]
  · simp [h]

theorem foldl_convertPackage (env : Env) (pkgs : List parser.Package) :
    ∀ st : BuildState,
      (pkgs.foldl (convertPackage env) st).suites.Suites =
        st.suites.Suites ++ pkgs.map (suiteOf (effectiveVersion env st.goVersion)) := by
  induction pkgs with
  | nil => intro st; simp
  | cons p rest ih =>
    intro st
    rw [List.foldl_cons, ih, convertPackage_suites, convertPackage_goVersion,
      effectiveVersion_idem]
    simp

theorem buildDocument_eq (env : Env) (report : parser.Report) (goVersion : String) :
    (buildDocument env report goVersion).Suites =
      report.Packages.map (suiteOf (effectiveVersion env goVersion)) := by
  simp [buildDocument, buildState, foldl_convertPackage]

theorem suite_at (env : Env) (report : parser.Report) (goVersion : String) (i : Nat)
    (pkg : parser.Package) (h : report.Packages[i]? = some pkg) :
    (buildDocument env report goVersion).Suites[i]? =
      some (suiteOf (effectiveVersion env goVersion) pkg) := by
  rw [buildDocument_eq, List.getElem?_map, h]
  rfl

theorem case_at (version : String) (pkg : parser.Package) (j : Nat) (test : parser.Test)
    (h : pkg.Tests[j]? = some test) :
    (suiteOf version pkg).TestCases[j]? = some (caseOf (classnameOf pkg.Name) test) := by
  show (pkg.Tests.map (caseOf (classnameOf pkg.Name)))[j]? = _
  rw [List.getElem?_map, h]
  rfl

/-! ## Shape of the document -/

/-- C1: the document has exactly as many suites as the report has packages, and
the suite at the index of a package has exactly as many test cases as the package
has tests, with its `Tests` attribute equal to that number. -/
theorem suite_and_case_counts (env : Env) (report : parser.Report) (goVersion : String) :
    (buildDocument env report goVersion).Suites.length = report.Packages.length ∧
    ∀ (i : Nat) (pkg : parser.Package), report.Packages[i]? = some pkg →
      ∃ ts, (buildDocument env report goVersion).Suites[i]? = some ts ∧
        ts.TestCases.length = pkg.Tests.length ∧ ts.Tests = pkg.Tests.length := by
  refine ⟨by simp [buildDocument_eq], ?_⟩
  intro i pkg h
  exact ⟨_, suite_at env report goVersion i pkg h, by simp [suiteOf], rfl⟩

theorem suite_and_case_counts_witness :
    ∃ ts, (buildDocument sampleEnv sampleReport "").Suites[0]? = some ts ∧
      ts.TestCases.length = 3 ∧ ts.Tests = 3 :=
  (suite_and_case_counts sampleEnv sampleReport "").2 0
    ⟨"pkg/sub", 750, "87.5",
      [⟨"TestA", 500, parser.Result.PASS, []⟩,
       ⟨"TestB", 250, parser.Result.FAIL, ["assertion failed", "at line 5"]⟩,
       ⟨"TestC", 0, parser.Result.SKIP, ["not today"]⟩]⟩ rfl

/-- C2: the `Failures` attribute of the suite at the index of a package is the
number of tests of that package whose result is FAIL; tests with another result
(PASS, SKIP) are not counted. -/
theorem failures_count_fail_tests (env : Env) (report : parser.Report) (goVersion : String)
    (i : Nat) (pkg : parser.Package) (h : report.Packages[i]? = some pkg) :
    ∃ ts, (buildDocument env report goVersion).Suites[i]? = some ts ∧
      ts.Failures = (pkg.Tests.filter (fun t => t.Result = parser.Result.FAIL)).length ∧
      ts.Failures + (pkg.Tests.filter (fun t => t.Result ≠ parser.Result.FAIL)).length =
        pkg.Tests.length := by
  refine ⟨_, suite_at env report goVersion i pkg h, rfl, ?_⟩
  show failCount pkg.Tests + _ = _
  unfold failCount
  induction pkg.Tests with
  | nil => simp
  | cons t rest ih =>
    by_cases ht : t.Result = parser.Result.FAIL <;> simp [ht] at ih ⊢ <;> omega

theorem failures_count_fail_tests_witness :
    ∃ ts, (buildDocument sampleEnv sampleReport "").Suites[0]? = some ts ∧
      ts.Failures = 1 ∧ ts.Failures + 2 = 3 :=
  failures_count_fail_tests sampleEnv sampleReport "" 0
    ⟨"pkg/sub", 750, "87.5",
      [⟨"TestA", 500, parser.Result.PASS, []⟩,
       ⟨"TestB", 250, parser.Result.FAIL, ["assertion failed", "at line 5"]⟩,
       ⟨"TestC", 0, parser.Result.SKIP, ["not today"]⟩]⟩ rfl

/-- C3: the case built from a test carries a failure note exactly when the result
is FAIL, a skip note exactly when the result is SKIP, never both, and neither for
a PASS test. -/
theorem notes_match_result (env : Env) (report : parser.Report) (goVersion : String)
    (i j : Nat) (pkg : parser.Package) (test : parser.Test)
    (hp : report.Packages[i]? = some pkg) (ht : pkg.Tests[j]? = some test) :
    ∃ ts tc, (buildDocument env report goVersion).Suites[i]? = some ts ∧
      ts.TestCases[j]? = some tc ∧
      (tc.Failure.isSome = true ↔ test.Result = parser.Result.FAIL) ∧
      (tc.SkipMessage.isSome = true ↔ test.Result = parser.Result.SKIP) ∧
      ¬ (tc.Failure.isSome = true ∧ tc.SkipMessage.isSome = true) ∧
      (test.Result = parser.Result.PASS → tc.Failure = none ∧ tc.SkipMessage = none) := by
  refine ⟨_, _, suite_at env report goVersion i pkg hp, case_at _ pkg j test ht, ?_⟩
  cases hres : test.Result <;> simp [caseOf, hres]

theorem notes_match_result_witness :
    ∃ ts tc, (buildDocument sampleEnv sampleReport "").Suites[0]? = some ts ∧
      ts.TestCases[1]? = some tc ∧
      (tc.Failure.isSome = true ↔ parser.Result.FAIL = parser.Result.FAIL) ∧
      (tc.SkipMessage.isSome = true ↔ parser.Result.FAIL = parser.Result.SKIP) ∧
      ¬ (tc.Failure.isSome = true ∧ tc.SkipMessage.isSome = true) ∧
      (parser.Result.FAIL = parser.Result.PASS → tc.Failure = none ∧ tc.SkipMessage = none) :=
  notes_match_result sampleEnv sampleReport "" 0 1
    ⟨"pkg/sub", 750, "87.5",
      [⟨"TestA", 500, parser.Result.PASS, []⟩,
       ⟨"TestB", 250, parser.Result.FAIL, ["assertion failed", "at line 5"]⟩,
       ⟨"TestC", 0, parser.Result.SKIP, ["not today"]⟩]⟩
    ⟨"TestB", 250, parser.Result.FAIL, ["assertion failed", "at line 5"]⟩ rfl rfl

/-- C4: suites and cases mirror the input order: the document has one suite per
package and each suite one case per test, at the same index; suite `i` has the
name of package `i` unchanged and the formatted time of that package, and case `j`
of suite `i` has the name of test `j` unchanged and the formatted time of that
test. -/
theorem order_names_times_mirror_input (env : Env) (report : parser.Report)
    (goVersion : String) :
    (buildDocument env report goVersion).Suites.length = report.Packages.length ∧
    ∀ (i : Nat) (pkg : parser.Package), report.Packages[i]? = some pkg →
      ∃ ts, (buildDocument env report goVersion).Suites[i]? = some ts ∧
        ts.Name = pkg.Name ∧ ts.Time = formatTime pkg.Time ∧
        ts.TestCases.length = pkg.Tests.length ∧
        ∀ (j : Nat) (test : parser.Test), pkg.Tests[j]? = some test →
          ∃ tc, ts.TestCases[j]? = some tc ∧
            tc.Name = test.Name ∧ tc.Time = formatTime test.Time := by
  refine ⟨by simp [buildDocument_eq], ?_⟩
  intro i pkg h
  refine ⟨_, suite_at env report goVersion i pkg h, rfl, rfl, by simp [suiteOf], ?_⟩
  intro j test ht
  exact ⟨_, case_at _ pkg j test ht, rfl, rfl⟩

theorem order_names_times_mirror_input_witness :
    ∃ ts, (buildDocument sampleEnv sampleReport "").Suites[0]? = some ts ∧
      ts.Name = "pkg/sub" ∧ ts.Time = formatTime 750 ∧
      ts.TestCases.length = 3 ∧
      ∀ (j : Nat) (test : parser.Test),
        [(⟨"TestA", 500, parser.Result.PASS, []⟩ : parser.Test),
         ⟨"TestB", 250, parser.Result.FAIL, ["assertion failed", "at line 5"]⟩,
         ⟨"TestC", 0, parser.Result.SKIP, ["not today"]⟩][j]? = some test →
          ∃ tc, ts.TestCases[j]? = some tc ∧
            tc.Name = test.Name ∧ tc.Time = formatTime test.Time :=
  (order_names_times_mirror_input sampleEnv sampleReport "").2 0
    ⟨"pkg/sub", 750, "87.5",
      [⟨"TestA", 500, parser.Result.PASS, []⟩,
       ⟨"TestB", 250, parser.Result.FAIL, ["assertion failed", "at line 5"]⟩,
       ⟨"TestC", 0, parser.Result.SKIP, ["not today"]⟩]⟩ rfl

/-! ## Class names -/

theorem lastIndexChars_ge (c : Char) (l : List Char) : -1 ≤ lastIndexChars l c := by
  induction l with
  | nil => simp [lastIndexChars]
  | cons x xs ih =>
    simp only [lastIndexChars]
    split_ifs <;> omega

theorem lastIndexChars_lt (c : Char) (l : List Char) :
    lastIndexChars l c < (l.length : Int) := by
  induction l with
  | nil => simp [lastIndexChars]
  | cons x xs ih =>
    simp only [lastIndexChars, List.length_cons]
    split_ifs <;> push_cast <;> omega

theorem lastIndexChars_neg (c : Char) (l : List Char) :
    lastIndexChars l c < 0 ↔ c ∉ l := by
  induction l with
  | nil => simp [lastIndexChars]
  | cons x xs ih =>
    have hge := lastIndexChars_ge c xs
    simp only [lastIndexChars, List.mem_cons, not_or]
    split_ifs with h1 h2
    · constructor
      · intro h; omega
      · intro h; exact absurd (ih.mpr h.2) (by omega)
    · constructor
      · intro h; omega
      · intro h; exact absurd h2.symm h.1
    · constructor
      · intro _; exact ⟨fun h => h2 h.symm, ih.mp (by omega)⟩
      · intro _; omega

theorem lastIndexChars_split (c : Char) (l : List Char) (h : 0 ≤ lastIndexChars l c) :
    l = l.take (lastIndexChars l c).toNat ++ c :: l.drop ((lastIndexChars l c).toNat + 1) ∧
      c ∉ l.drop ((lastIndexChars l c).toNat + 1) := by
  induction l with
  | nil => simp [lastIndexChars] at h
  | cons x xs ih =>
    simp only [lastIndexChars] at h ⊢
    split_ifs at h ⊢ with h1 h2
    · obtain ⟨e1, e2⟩ := ih h1
      have hk : (lastIndexChars xs c + 1).toNat = (lastIndexChars xs c).toNat + 1 := by omega
      rw [hk]
      simp only [List.take_succ_cons, List.drop_succ_cons, List.cons_append]
      exact ⟨by rw [← e1], e2⟩
    · subst h2
      have : x ∉ xs := (lastIndexChars_neg x xs).mp (by omega)
      simpa using this
    · omega

theorem classnameOf_no_separator (s : String) (h : '/' ∉ s.data) : classnameOf s = s := by
  have hneg := (lastIndexChars_neg '/' s.data).mpr h
  unfold classnameOf stringsLastIndex
  simp only
  rw [if_neg]
  intro hc
  omega

theorem classnameOf_separator (s : String) (h : '/' ∈ s.data) :
    (∃ pre : String, s = pre ++ "/" ++ classnameOf s) ∧ '/' ∉ (classnameOf s).data := by
  have hnn : 0 ≤ lastIndexChars s.data '/' := by
    by_contra hc
    exact (lastIndexChars_neg '/' s.data).mp (by omega) h
  have hlt := lastIndexChars_lt '/' s.data
  obtain ⟨e1, e2⟩ := lastIndexChars_split '/' s.data hnn
  have hcn : classnameOf s = ⟨s.data.drop ((lastIndexChars s.data '/').toNat + 1)⟩ := by
    unfold classnameOf stringsLastIndex sliceFrom
    simp only
    rw [if_pos]
    · congr 2
      omega
    · exact ⟨by omega, hlt⟩
  rw [hcn]
  refine ⟨⟨⟨s.data.take (lastIndexChars s.data '/').toNat⟩, ?_⟩, e2⟩
  apply String.ext
  simp only [String.data_append]
  simpa using e1

/-- C6: every case of the suite of a package has the same class name, the text of
the package name after its last `/`, or the whole name when it has no `/`: without
a `/` the class name is the name; with one, the name is some prefix, a `/`, and the
class name, which has no `/` itself.  So `a/b/c` gives `c` and `nodir` gives
`nodir`. -/
theorem classname_is_last_path_segment (env : Env) (report : parser.Report)
    (goVersion : String) (i : Nat) (pkg : parser.Package)
    (h : report.Packages[i]? = some pkg) :
    ∃ ts, (buildDocument env report goVersion).Suites[i]? = some ts ∧
      (∀ tc ∈ ts.TestCases, tc.Classname = classnameOf pkg.Name) ∧
      ('/' ∉ pkg.Name.data → classnameOf pkg.Name = pkg.Name) ∧
      ('/' ∈ pkg.Name.data →
        (∃ pre : String, pkg.Name = pre ++ "/" ++ classnameOf pkg.Name) ∧
          '/' ∉ (classnameOf pkg.Name).data) ∧
      classnameOf "a/b/c" = "c" ∧ classnameOf "nodir" = "nodir" := by
  refine ⟨_, suite_at env report goVersion i pkg h, ?_, classnameOf_no_separator pkg.Name,
    classnameOf_separator pkg.Name, by decide, by decide⟩
  intro tc htc
  simp only [suiteOf, List.mem_map] at htc
  obtain ⟨t, _, rfl⟩ := htc
  rfl

theorem classname_is_last_path_segment_witness :
    ∃ ts, (buildDocument sampleEnv sampleReport "").Suites[0]? = some ts ∧
      (∀ tc ∈ ts.TestCases, tc.Classname = classnameOf "pkg/sub") ∧
      ('/' ∉ "pkg/sub".data → classnameOf "pkg/sub" = "pkg/sub") ∧
      ('/' ∈ "pkg/sub".data →
        (∃ pre : String, "pkg/sub" = pre ++ "/" ++ classnameOf "pkg/sub") ∧
          '/' ∉ (classnameOf "pkg/sub").data) ∧
      classnameOf "a/b/c" = "c" ∧ classnameOf "nodir" = "nodir" :=
  classname_is_last_path_segment sampleEnv sampleReport "" 0
    ⟨"pkg/sub", 750, "87.5",
      [⟨"TestA", 500, parser.Result.PASS, []⟩,
       ⟨"TestB", 250, parser.Result.FAIL, ["assertion failed", "at line 5"]⟩,
       ⟨"TestC", 0, parser.Result.SKIP, ["not today"]⟩]⟩ rfl

/-! ## Properties -/

/-- C7: the property list of the suite of a package is exactly the `go.version`
property with the effective version when the coverage string is empty, and exactly
that property followed by `coverage.statements.pct` with the coverage string when
it is not; no coverage property with an empty value occurs. -/
theorem suite_properties (env : Env) (report : parser.Report) (goVersion : String)
    (i : Nat) (pkg : parser.Package) (h : report.Packages[i]? = some pkg) :
    ∃ ts, (buildDocument env report goVersion).Suites[i]? = some ts ∧
      (pkg.CoveragePct = "" →
        ts.Properties =
          [⟨"go.version", if goVersion = "" then env.runtimeVersion else goVersion⟩]) ∧
      (pkg.CoveragePct ≠ "" →
        ts.Properties =
          [⟨"go.version", if goVersion = "" then env.runtimeVersion else goVersion⟩,
           ⟨"coverage.statements.pct", pkg.CoveragePct⟩]) ∧
      (∀ p ∈ ts.Properties, p.Name = "coverage.statements.pct" → p.Value ≠ "") := by
  refine ⟨_, suite_at env report goVersion i pkg h, ?_, ?_, ?_⟩
  · intro hc
    simp [suiteOf, propertiesOf, hc, effectiveVersion]
  · intro hc
    simp [suiteOf, propertiesOf, hc, effectiveVersion]
  · intro p hp hn
    by_cases hc : pkg.CoveragePct = ""
    · simp only [suiteOf, propertiesOf, hc, if_true, List.mem_singleton] at hp
      subst hp
      simp at hn
    · simp only [suiteOf, propertiesOf, hc, if_false, List.mem_cons, List.mem_singleton,
        List.not_mem_nil, or_false] at hp
      rcases hp with rfl | rfl
      · simp at hn
      · exact hc

theorem suite_properties_witness :
    ∃ ts, (buildDocument sampleEnv sampleReport "").Suites[0]? = some ts ∧
      ("87.5" = "" →
        ts.Properties =
          [⟨"go.version", if "" = "" then sampleEnv.runtimeVersion else ""⟩]) ∧
      ("87.5" ≠ "" →
        ts.Properties =
          [⟨"go.version", if "" = "" then sampleEnv.runtimeVersion else ""⟩,
           ⟨"coverage.statements.pct", "87.5"⟩]) ∧
      (∀ p ∈ ts.Properties, p.Name = "coverage.statements.pct" → p.Value ≠ "") :=
  suite_properties sampleEnv sampleReport "" 0
    ⟨"pkg/sub", 750, "87.5",
      [⟨"TestA", 500, parser.Result.PASS, []⟩,
       ⟨"TestB", 250, parser.Result.FAIL, ["assertion failed", "at line 5"]⟩,
       ⟨"TestC", 0, parser.Result.SKIP, ["not today"]⟩]⟩ rfl

theorem go_version_of_suiteOf (version : String) (pkg : parser.Package) :
    (∃ p ∈ (suiteOf version pkg).Properties, p.Name = "go.version") ∧
      ∀ p ∈ (suiteOf version pkg).Properties, p.Name = "go.version" → p.Value = version := by
  by_cases hc : pkg.CoveragePct = ""
  · simp [suiteOf, propertiesOf, hc]
  · simp only [suiteOf, propertiesOf, hc, if_false]
    refine ⟨⟨_, List.mem_cons_self _ _, rfl⟩, ?_⟩
    intro p hp hn
    simp only [List.mem_cons, List.mem_singleton, List.not_mem_nil, or_false] at hp
    rcases hp with rfl | rfl
    · rfl
    · simp at hn

/-- C8: with a non-empty `goVersion` argument every suite has a `go.version`
property and its value is that argument; with an empty argument every suite has a
`go.version` property and its value is what `runtime.Version` reports, the same
for all suites. -/
theorem version_resolution (env : Env) (report : parser.Report) (goVersion : String) :
    (goVersion ≠ "" → ∀ ts ∈ (buildDocument env report goVersion).Suites,
      (∃ p ∈ ts.Properties, p.Name = "go.version") ∧
        ∀ p ∈ ts.Properties, p.Name = "go.version" → p.Value = goVersion) ∧
    (goVersion = "" → ∀ ts ∈ (buildDocument env report goVersion).Suites,
      (∃ p ∈ ts.Properties, p.Name = "go.version") ∧
        ∀ p ∈ ts.Properties, p.Name = "go.version" → p.Value = env.runtimeVersion) := by
  constructor
  · intro hg ts hts
    rw [buildDocument_eq, List.mem_map] at hts
    obtain ⟨pkg, _, rfl⟩ := hts
    simpa [effectiveVersion, hg] using go_version_of_suiteOf (effectiveVersion env goVersion) pkg
  · intro hg ts hts
    rw [buildDocument_eq, List.mem_map] at hts
    obtain ⟨pkg, _, rfl⟩ := hts
    simpa [effectiveVersion, hg] using go_version_of_suiteOf (effectiveVersion env goVersion) pkg

theorem version_resolution_witness :
    (∀ ts ∈ (buildDocument sampleEnv sampleReport "go1.19").Suites,
      (∃ p ∈ ts.Properties, p.Name = "go.version") ∧
        ∀ p ∈ ts.Properties, p.Name = "go.version" → p.Value = "go1.19") ∧
    (∀ ts ∈ (buildDocument sampleEnv sampleReport "").Suites,
      (∃ p ∈ ts.Properties, p.Name = "go.version") ∧
        ∀ p ∈ ts.Properties, p.Name = "go.version" → p.Value = sampleEnv.runtimeVersion) :=
  ⟨(version_resolution sampleEnv sampleReport "go1.19").1 (by decide),
   (version_resolution sampleEnv sampleReport "").2 rfl⟩

/-! ## Output framing -/

theorem Sink.write_of_hasRoom (w : Sink) (p : List Nat) (h : w.hasRoom p.length) :
    (w.write p).1.written = w.written ++ p ∧ (w.write p).2 = false := by
  unfold Sink.hasRoom at h
  unfold Sink.write
  cases hr : w.room with
  | none => simp
  | some k =>
    rw [hr] at h
    simp only at h
    simp [h]

theorem utf8Bytes_append (a b : String) : utf8Bytes (a ++ b) = utf8Bytes a ++ utf8Bytes b := by
  simp [utf8Bytes, String.data_append]

theorem AllureReportXML_of_marshal_ok (env : Env)
    (marshal : AllureTestSuites → Except String (List Nat)) (report : parser.Report)
    (noXMLHeader : Bool) (goVersion : String) (w : Sink) (B : List Nat)
    (hB : marshal (buildDocument env report goVersion) = Except.ok B) :
    AllureReportXML env marshal report noXMLHeader goVersion w =
      ⟨none,
        (w.write ((if noXMLHeader then [] else utf8Bytes xmlHeader) ++ B ++ [10])).1,
        (w.write ((if noXMLHeader then [] else utf8Bytes xmlHeader) ++ B ++ [10])).2,
        (buildState env report goVersion).versionCalls⟩ := by
  have hB2 : marshal (buildState env report goVersion).suites = Except.ok B := hB
  cases noXMLHeader <;>
    simp [AllureReportXML, hB2, BufWriter.new, BufWriter.writeString, BufWriter.write,
      BufWriter.writeByte, BufWriter.flush]

/-- C9 (as written, for every report whose document marshals) fails: on a writer
that accepts no bytes the document of the sample report marshals to a body, yet
for neither value of `noXMLHeader` do the framed bytes arrive, the sink stays
empty. -/
theorem output_framing_fails_on_full_sink :
    sampleMarshal (buildDocument sampleEnv sampleReport "") =
      Except.ok (utf8Bytes "<testsuites></testsuites>") ∧
    (AllureReportXML sampleEnv sampleMarshal sampleReport true "" fullSink).sink.written = [] ∧
    (AllureReportXML sampleEnv sampleMarshal sampleReport false "" fullSink).sink.written = [] ∧
    (AllureReportXML sampleEnv sampleMarshal sampleReport true "" fullSink).sink.written ≠
      fullSink.written ++ (utf8Bytes "<testsuites></testsuites>" ++ [10]) ∧
    (AllureReportXML sampleEnv sampleMarshal sampleReport false "" fullSink).sink.written ≠
      fullSink.written ++
        (utf8Bytes "<?xml version=\"1.0\" encoding=\"UTF-8\"?>" ++ [10] ++
          (utf8Bytes "<testsuites></testsuites>" ++ [10])) :=
  ⟨rfl, by decide, by decide, by decide, by decide⟩

/-- C9 (amended): when the document marshals to a body `B`, then on a writer with
room for `B` and one more byte a call with `noXMLHeader` true returns `nil` and
adds exactly `B` and one newline to the sink, and on a writer with room for the
declaration line, `B` and one more byte a call with `noXMLHeader` false returns
`nil` and adds exactly the bytes of `<?xml version="1.0" encoding="UTF-8"?>`, a
newline, `B` and one newline: the output with the declaration is the declaration
line put in front of the output without it.  The room is counted in bytes; a writer
that never fails has room for everything. -/
theorem output_framing (env : Env) (marshal : AllureTestSuites → Except String (List Nat))
    (report : parser.Report) (goVersion : String) (w : Sink) (B : List Nat)
    (hB : marshal (buildDocument env report goVersion) = Except.ok B) :
    (w.hasRoom (B.length + 1) →
      (AllureReportXML env marshal report true goVersion w).sink.written =
          w.written ++ (B ++ [10]) ∧
      (AllureReportXML env marshal report true goVersion w).err = none ∧
      (AllureReportXML env marshal report true goVersion w).writeFailed = false) ∧
    (w.hasRoom
        ((utf8Bytes "<?xml version=\"1.0\" encoding=\"UTF-8\"?>" ++ [10]).length +
          (B.length + 1)) →
      (AllureReportXML env marshal report false goVersion w).sink.written =
          w.written ++
            (utf8Bytes "<?xml version=\"1.0\" encoding=\"UTF-8\"?>" ++ [10] ++ (B ++ [10])) ∧
      (AllureReportXML env marshal report false goVersion w).err = none ∧
      (AllureReportXML env marshal report false goVersion w).writeFailed = false) ∧
    (utf8Bytes "<?xml version=\"1.0\" encoding=\"UTF-8\"?>" ++ [10]).length = 39 := by
  have hh : utf8Bytes xmlHeader =
      utf8Bytes "<?xml version=\"1.0\" encoding=\"UTF-8\"?>" ++ [10] := by decide
  have hl : (utf8Bytes "<?xml version=\"1.0\" encoding=\"UTF-8\"?>" ++ [10]).length = 39 := by
    decide
  refine ⟨?_, ?_, hl⟩
  · intro hw
    rw [AllureReportXML_of_marshal_ok env marshal report true goVersion w B hB]
    have hw1 : w.hasRoom (([] : List Nat) ++ B ++ [10]).length := by simpa using hw
    obtain ⟨e1, e2⟩ := Sink.write_of_hasRoom w _ hw1
    exact ⟨by simpa using e1, rfl, by simpa using e2⟩
  · intro hw
    rw [AllureReportXML_of_marshal_ok env marshal report false goVersion w B hB]
    have hw2 : w.hasRoom (utf8Bytes xmlHeader ++ B ++ [10]).length := by
      rw [hl] at hw
      rw [hh, List.length_append, List.length_append, hl]
      simpa using hw
    obtain ⟨e1, e2⟩ := Sink.write_of_hasRoom w _ hw2
    rw [hh] at e1 e2
    exact ⟨by simpa using e1, rfl, by simpa [hh] using e2⟩

theorem output_framing_witness :
    ((AllureReportXML sampleEnv sampleMarshal sampleReport true "" ⟨[], some 26⟩).sink.written =
          [] ++ (utf8Bytes "<testsuites></testsuites>" ++ [10]) ∧
      (AllureReportXML sampleEnv sampleMarshal sampleReport true "" ⟨[], some 26⟩).err = none ∧
      (AllureReportXML sampleEnv sampleMarshal sampleReport true "" ⟨[], some 26⟩).writeFailed
        = false) ∧
    ((AllureReportXML sampleEnv sampleMarshal sampleReport false "" ⟨[], none⟩).sink.written =
          [] ++
            (utf8Bytes "<?xml version=\"1.0\" encoding=\"UTF-8\"?>" ++ [10] ++
              (utf8Bytes "<testsuites></testsuites>" ++ [10])) ∧
      (AllureReportXML sampleEnv sampleMarshal sampleReport false "" ⟨[], none⟩).err = none ∧
      (AllureReportXML sampleEnv sampleMarshal sampleReport false "" ⟨[], none⟩).writeFailed
        = false) :=
  ⟨(output_framing sampleEnv sampleMarshal sampleReport "" ⟨[], some 26⟩
      (utf8Bytes "<testsuites></testsuites>") rfl).1
      (show (utf8Bytes "<testsuites></testsuites>").length + 1 ≤ 26 by decide),
   (output_framing sampleEnv sampleMarshal sampleReport "" ⟨[], none⟩
      (utf8Bytes "<testsuites></testsuites>") rfl).2.1 trivial⟩

/-! ## Failure notes -/

theorem intercalate_go_append (s : String) (l : List String) :
    ∀ a b : String, String.intercalate.go (a ++ b) s l = a ++ String.intercalate.go b s l := by
  induction l with
  | nil => intro a b; simp [String.intercalate.go]
  | cons x xs ih =>
    intro a b
    simp only [String.intercalate.go]
    rw [String.append_assoc a b s, String.append_assoc a (b ++ s) x, ih]

theorem stringsJoin_nil (sep : String) : stringsJoin [] sep = "" := rfl

theorem stringsJoin_single (sep l : String) : stringsJoin [l] sep = l := rfl

theorem stringsJoin_cons_cons (sep l l2 : String) (ls : List String) :
    stringsJoin (l :: l2 :: ls) sep = l ++ sep ++ stringsJoin (l2 :: ls) sep := by
  simp only [stringsJoin, String.intercalate, String.intercalate.go]
  rw [intercalate_go_append]

/-- C10: the case of a test whose result is FAIL has a failure note with message
`Failed`, empty type, and as contents the output lines of the test joined with
single newlines: nothing for no lines, the line itself for one line, and otherwise
the first line, a newline, and the remaining lines joined. -/
theorem failure_note_contents (env : Env) (report : parser.Report) (goVersion : String)
    (i j : Nat) (pkg : parser.Package) (test : parser.Test)
    (hp : report.Packages[i]? = some pkg) (ht : pkg.Tests[j]? = some test)
    (hf : test.Result = parser.Result.FAIL) :
    (∃ ts tc, (buildDocument env report goVersion).Suites[i]? = some ts ∧
      ts.TestCases[j]? = some tc ∧
      tc.Failure = some ⟨"Failed", "", stringsJoin test.Output "\n"⟩) ∧
    stringsJoin [] "\n" = "" ∧
    (∀ l : String, stringsJoin [l] "\n" = l) ∧
    (∀ (l l2 : String) (ls : List String),
      stringsJoin (l :: l2 :: ls) "\n" = l ++ "\n" ++ stringsJoin (l2 :: ls) "\n") := by
  refine ⟨⟨_, _, suite_at env report goVersion i pkg hp, case_at _ pkg j test ht, ?_⟩,
    stringsJoin_nil _, stringsJoin_single _, stringsJoin_cons_cons _⟩
  simp [caseOf, hf]

theorem failure_note_contents_witness :
    ∃ ts tc, (buildDocument sampleEnv sampleReport "").Suites[0]? = some ts ∧
      ts.TestCases[1]? = some tc ∧
      tc.Failure =
        some ⟨"Failed", "", stringsJoin ["assertion failed", "at line 5"] "\n"⟩ :=
  (failure_note_contents sampleEnv sampleReport "" 0 1
    ⟨"pkg/sub", 750, "87.5",
      [⟨"TestA", 500, parser.Result.PASS, []⟩,
       ⟨"TestB", 250, parser.Result.FAIL, ["assertion failed", "at line 5"]⟩,
       ⟨"TestC", 0, parser.Result.SKIP, ["not today"]⟩]⟩
    ⟨"TestB", 250, parser.Result.FAIL, ["assertion failed", "at line 5"]⟩ rfl rfl rfl).1

/-! ## Time formatting -/

set_option maxRecDepth 1000000 in
theorem zeroPad3_eq_digits :
    ∀ n, n < 1000 →
      zeroPad3 n = String.mk [digit (n / 100), digit (n % 100 / 10), digit (n % 10)] := by
  decide

theorem roundHalfEven_bounds (n d : Nat) (hd : 0 < d) :
    2 * (roundHalfEven n d * d) ≤ 2 * n + d ∧ 2 * n ≤ 2 * (roundHalfEven n d * d) + d := by
  have hdm := Nat.div_add_mod n d
  have hlt := Nat.mod_lt n hd
  have hmul : d * (n / d) = n / d * d := Nat.mul_comm _ _
  unfold roundHalfEven
  simp only
  split_ifs with h1 h2 h3
  · constructor <;> omega
  · rw [Nat.add_mul]; constructor <;> omega
  · constructor <;> omega
  · rw [Nat.add_mul]; constructor <;> omega

theorem roundHalfEven_unique (n d k : Nat) (hd : 0 < d)
    (h1 : 2 * (k * d) < 2 * n + d) (h2 : 2 * n < 2 * (k * d) + d) :
    roundHalfEven n d = k := by
  have hdm := Nat.div_add_mod n d
  have hlt := Nat.mod_lt n hd
  have hmul : d * (n / d) = n / d * d := Nat.mul_comm _ _
  have key : ∀ a b : Nat, a * d < (b + 1) * d → a ≤ b := fun a b h =>
    Nat.lt_succ_iff.mp (Nat.lt_of_mul_lt_mul_right h)
  unfold roundHalfEven
  simp only
  split_ifs with c1 c2 c3
  · have hk : k ≤ n / d := key k (n / d) (by rw [Nat.add_mul]; omega)
    have hq : n / d ≤ k := key (n / d) k (by rw [Nat.add_mul]; omega)
    omega
  · have hk : k ≤ n / d + 1 := key k (n / d + 1) (by rw [Nat.add_mul, Nat.add_mul]; omega)
    have hq : n / d + 1 ≤ k := by
      by_contra hc
      have : k ≤ n / d := by omega
      have := Nat.mul_le_mul_right d this
      omega
    omega
  · exfalso
    have hk : k ≤ n / d := key k (n / d) (by rw [Nat.add_mul]; omega)
    have := Nat.mul_le_mul_right d hk
    omega
  · exfalso
    have hk : k ≤ n / d := key k (n / d) (by rw [Nat.add_mul]; omega)
    have := Nat.mul_le_mul_right d hk
    omega

theorem roundHalfEven_one (n : Nat) : roundHalfEven n 1 = n :=
  roundHalfEven_unique n 1 n (by decide) (by omega) (by omega)

/-- Dividing by a thousand in binary and multiplying back in decimal returns the
integer one started from, as long as the binary grid is finer than `1/1024`. -/
theorem round_trip (t P Q : Nat) (hP : 0 < P) (hQ : 1024 ≤ Q) :
    roundHalfEven (roundHalfEven (t * P * Q) (P * 1000) * 1000) Q = t := by
  obtain ⟨b1, b2⟩ := roundHalfEven_bounds (t * P * Q) (P * 1000) (by omega)
  generalize roundHalfEven (t * P * Q) (P * 1000) = m at b1 b2
  have c1 : (2 * (m * 1000)) * P ≤ (2 * (t * Q) + 1000) * P := by
    calc (2 * (m * 1000)) * P = 2 * (m * (P * 1000)) := by ring
      _ ≤ 2 * (t * P * Q) + P * 1000 := b1
      _ = (2 * (t * Q) + 1000) * P := by ring
  have c2 : (2 * (t * Q)) * P ≤ (2 * (m * 1000) + 1000) * P := by
    calc (2 * (t * Q)) * P = 2 * (t * P * Q) := by ring
      _ ≤ 2 * (m * (P * 1000)) + P * 1000 := b2
      _ = (2 * (m * 1000) + 1000) * P := by ring
  have d1 := Nat.le_of_mul_le_mul_right c1 hP
  have d2 := Nat.le_of_mul_le_mul_right c2 hP
  apply roundHalfEven_unique _ _ _ (by omega) <;> omega

theorem log2Fuel_spec (fuel : Nat) :
    ∀ n, n ≤ fuel → 0 < n →
      2 ^ log2Fuel fuel n ≤ n ∧ n < 2 ^ (log2Fuel fuel n + 1) := by
  induction fuel with
  | zero => intro n h1 h2; omega
  | succ f ih =>
    intro n h1 h2
    unfold log2Fuel
    split_ifs with hn
    · simp; omega
    · obtain ⟨i1, i2⟩ := ih (n / 2) (by omega) (by omega)
      rw [Nat.pow_succ, Nat.pow_succ]
      constructor <;> omega

theorem ilog2_spec (n : Nat) (hn : 0 < n) : 2 ^ ilog2 n ≤ n ∧ n < 2 ^ (ilog2 n + 1) :=
  log2Fuel_spec n n (Nat.le_refl n) hn

theorem floorLog2_le (a b k : Nat) (ha : 0 < a) (hb : 0 < b) (h : a < 2 ^ (k + 1) * b) :
    floorLog2 a b ≤ (k : Int) := by
  obtain ⟨a1, _⟩ := ilog2_spec a ha
  obtain ⟨_, b2⟩ := ilog2_spec b hb
  have hlt : 2 ^ ilog2 a < 2 ^ (k + 1 + (ilog2 b + 1)) := by
    calc 2 ^ ilog2 a ≤ a := a1
      _ < 2 ^ (k + 1) * b := h
      _ < 2 ^ (k + 1) * 2 ^ (ilog2 b + 1) := (Nat.mul_lt_mul_left (by positivity)).mpr b2
      _ = 2 ^ (k + 1 + (ilog2 b + 1)) := (Nat.pow_add 2 _ _).symm
  have hl : ilog2 a < k + 1 + (ilog2 b + 1) := (Nat.pow_lt_pow_iff_right (by decide)).mp hlt
  unfold floorLog2
  simp only
  split_ifs with hc
  · by_contra hgt
    have hk : (ilog2 a : Int) - (ilog2 b : Int) = (k : Int) + 1 := by omega
    rw [hk] at hc
    have e1 : ((k : Int) + 1).toNat = k + 1 := by omega
    have e2 : (-((k : Int) + 1)).toNat = 0 := by omega
    rw [e1, e2, Nat.pow_zero, Nat.mul_one, Nat.mul_comm] at hc
    omega
  · omega

theorem roundF64_of_lt (a b k : Nat) (ha : 0 < a) (hb : 0 < b) (hk : k ≤ 52)
    (h : a < 2 ^ (k + 1) * b) :
    ∃ E : Nat, 52 - k ≤ E ∧ roundF64 a b = ⟨roundHalfEven (a * 2 ^ E) b, -(E : Int)⟩ := by
  have hle := floorLog2_le a b k ha hb h
  refine ⟨(-(floorLog2 a b - 52)).toNat, by omega, ?_⟩
  unfold roundF64
  rw [if_neg (by omega)]
  simp only
  have e0 : (floorLog2 a b - 52).toNat = 0 := by omega
  have e1 : ((-(floorLog2 a b - 52)).toNat : Int) = -(floorLog2 a b - 52) := by omega
  rw [e0, Nat.pow_zero, Nat.mul_one, e1, neg_neg]

theorem F64.num_of_neg_exp (m E : Nat) : (⟨m, -(E : Int)⟩ : F64).num = m := by
  have : (-(E : Int)).toNat = 0 := by omega
  simp [F64.num, this]

theorem F64.den_of_neg_exp (m E : Nat) : (⟨m, -(E : Int)⟩ : F64).den = 2 ^ E := by
  simp [F64.den]

/-- Below `2^43` seconds the rounding of `%.3f` recovers the milliseconds exactly. -/
theorem millis_recovered (t : Nat) (h0 : 0 < t) (h : t < 8796093022208000) :
    roundHalfEven ((float64OfNat t).divThousand.num * 1000) (float64OfNat t).divThousand.den
      = t := by
  obtain ⟨E1, _, r1⟩ := roundF64_of_lt t 1 52 h0 (by decide) (Nat.le_refl _) (by omega)
  rw [roundHalfEven_one] at r1
  have hP : 0 < 2 ^ E1 := by positivity
  have hlt : t * 2 ^ E1 < 2 ^ (42 + 1) * (2 ^ E1 * 1000) := by
    have : t * 2 ^ E1 < 8796093022208000 * 2 ^ E1 := (Nat.mul_lt_mul_right hP).mpr h
    calc t * 2 ^ E1 < 8796093022208000 * 2 ^ E1 := this
      _ = 2 ^ (42 + 1) * (2 ^ E1 * 1000) := by norm_num; ring
  obtain ⟨E2, hE2, r2⟩ :=
    roundF64_of_lt (t * 2 ^ E1) (2 ^ E1 * 1000) 42 (by positivity) (by positivity)
      (by decide) hlt
  have hQ : 1024 ≤ 2 ^ E2 := by
    calc 1024 = 2 ^ 10 := by norm_num
      _ ≤ 2 ^ E2 := Nat.pow_le_pow_right (by decide) (by omega)
  unfold F64.divThousand float64OfNat
  rw [r1, F64.num_of_neg_exp, F64.den_of_neg_exp, r2, F64.num_of_neg_exp, F64.den_of_neg_exp]
  exact round_trip t (2 ^ E1) (2 ^ E2) hP hQ

theorem sprintf3f_of_round (x : F64) (t : Nat)
    (h : roundHalfEven (x.num * 1000) x.den = t) : sprintf3f x = specTimeText t := by
  unfold sprintf3f specTimeText
  simp only
  rw [h, zeroPad3_eq_digits (t % 1000) (Nat.mod_lt _ (by decide))]
  have e1 : t % 1000 % 100 = t % 100 := by omega
  have e2 : t % 1000 % 10 = t % 10 := by omega
  rw [e1, e2]

theorem formatTime_eq_spec_of_lt (t : Nat) (h : t < 8796093022208000) :
    formatTime (t : Int) = specTimeText t := by
  unfold formatTime
  rw [if_neg (by omega), Int.natAbs_ofNat]
  rcases Nat.eq_zero_or_pos t with h0 | h0
  · subst h0; decide
  · exact sprintf3f_of_round _ t (millis_recovered t h0 h)

theorem formatTime_at_bound :
    formatTime (8796093022208000 : Nat) = specTimeText 8796093022208000 := by decide

/-- C5 (as written, for every non-negative `ms`) fails: at `8796093022208001` ms the
double nearest to the quotient is more than half a millisecond away from it, and
the source prints `8796093022208.002` where the claim wants `8796093022208.001`. -/
theorem formatTime_not_div_mod_at_2pow43_seconds :
    formatTime ((8796093022208001 : Nat) : Int) = "8796093022208.002" ∧
    specTimeText 8796093022208001 = "8796093022208.001" ∧
    formatTime ((8796093022208001 : Nat) : Int) ≠ specTimeText 8796093022208001 := by
  decide

/-- C5 (amended): for every `ms` from `0` to `8796093022208000` (that is `2^43`
seconds), `formatTime ms` is the numeral of `ms div 1000`, a point, and
`ms mod 1000` padded with zeros to three digits; so `0` gives `0.000`, `1000` gives
`1.000`, `1234` gives `1.234` and `999` gives `0.999`. -/
theorem formatTime_three_decimals (ms : Nat) (h : ms ≤ 8796093022208000) :
    formatTime (ms : Int) = specTimeText ms ∧
    formatTime 0 = "0.000" ∧ formatTime 1000 = "1.000" ∧
    formatTime 1234 = "1.234" ∧ formatTime 999 = "0.999" := by
  refine ⟨?_, by decide, by decide, by decide, by decide⟩
  rcases Nat.lt_or_ge ms 8796093022208000 with hlt | hge
  · exact formatTime_eq_spec_of_lt ms hlt
  · have : ms = 8796093022208000 := by omega
    subst this
    exact formatTime_at_bound

theorem formatTime_three_decimals_witness :
    formatTime ((86399999 : Nat) : Int) = specTimeText 86399999 ∧
    formatTime 0 = "0.000" ∧ formatTime 1000 = "1.000" ∧
    formatTime 1234 = "1.234" ∧ formatTime 999 = "0.999" :=
  formatTime_three_decimals 86399999 (by decide)

/-! ## Skip notes -/

/-- C11: the case of a test whose result is SKIP has a skip note whose message is
the output lines of the test joined with single newlines, and the loop step for
such a test leaves the failure count of the suite as it was. -/
theorem skip_note_message (env : Env) (report : parser.Report) (goVersion : String)
    (i j : Nat) (pkg : parser.Package) (test : parser.Test)
    (hp : report.Packages[i]? = some pkg) (ht : pkg.Tests[j]? = some test)
    (hs : test.Result = parser.Result.SKIP) :
    (∃ ts tc, (buildDocument env report goVersion).Suites[i]? = some ts ∧
      ts.TestCases[j]? = some tc ∧
      tc.SkipMessage = some ⟨stringsJoin test.Output "\n"⟩) ∧
    (∀ (classname : String) (ts0 : AllureTestSuite),
      (addTestCase classname ts0 test).Failures = ts0.Failures) ∧
    stringsJoin [] "\n" = "" ∧
    (∀ l : String, stringsJoin [l] "\n" = l) ∧
    (∀ (l l2 : String) (ls : List String),
      stringsJoin (l :: l2 :: ls) "\n" = l ++ "\n" ++ stringsJoin (l2 :: ls) "\n") := by
  refine ⟨⟨_, _, suite_at env report goVersion i pkg hp, case_at _ pkg j test ht, ?_⟩, ?_,
    stringsJoin_nil _, stringsJoin_single _, stringsJoin_cons_cons _⟩
  · simp [caseOf, hs]
  · intro classname ts0
    simp [addTestCase, hs]

theorem skip_note_message_witness :
    ∃ ts tc, (buildDocument sampleEnv sampleReport "").Suites[0]? = some ts ∧
      ts.TestCases[2]? = some tc ∧
      tc.SkipMessage = some ⟨stringsJoin ["not today"] "\n"⟩ :=
  (skip_note_message sampleEnv sampleReport "" 0 2
    ⟨"pkg/sub", 750, "87.5",
      [⟨"TestA", 500, parser.Result.PASS, []⟩,
       ⟨"TestB", 250, parser.Result.FAIL, ["assertion failed", "at line 5"]⟩,
       ⟨"TestC", 0, parser.Result.SKIP, ["not today"]⟩]⟩
    ⟨"TestC", 0, parser.Result.SKIP, ["not today"]⟩ rfl rfl rfl).1

/-! ## Errors -/

/-- C12 does not hold of the source: on a writer that accepts no bytes the write
fails, nothing reaches the writer, and `AllureReportXML` still returns `nil`. -/
theorem write_failure_returns_nil :
    (AllureReportXML sampleEnv sampleMarshal sampleReport false "" fullSink).writeFailed
        = true ∧
    (AllureReportXML sampleEnv sampleMarshal sampleReport false "" fullSink).sink.written
        = [] ∧
    (AllureReportXML sampleEnv sampleMarshal sampleReport false "" fullSink).err = none := by
  decide

/-- C16: when marshalling the document fails, `AllureReportXML` returns that error
and the sink is exactly as it was before the call, for either value of
`noXMLHeader`: no declaration, no newline, no write at all. -/
theorem marshal_failure_writes_nothing (env : Env)
    (marshal : AllureTestSuites → Except String (List Nat)) (report : parser.Report)
    (noXMLHeader : Bool) (goVersion : String) (w : Sink) (e : String)
    (hm : marshal (buildDocument env report goVersion) = Except.error e) :
    (AllureReportXML env marshal report noXMLHeader goVersion w).err = some e ∧
    (AllureReportXML env marshal report noXMLHeader goVersion w).sink = w ∧
    (AllureReportXML env marshal report noXMLHeader goVersion w).writeFailed = false := by
  have hm2 : marshal (buildState env report goVersion).suites = Except.error e := hm
  simp only [AllureReportXML, hm2, and_self]

theorem marshal_failure_writes_nothing_witness :
    (AllureReportXML sampleEnv failingMarshal sampleReport false "" ⟨[107, 101, 112, 116], none⟩).err
        = some "xml: unsupported type" ∧
    (AllureReportXML sampleEnv failingMarshal sampleReport false "" ⟨[107, 101, 112, 116], none⟩).sink
        = ⟨[107, 101, 112, 116], none⟩ ∧
    (AllureReportXML sampleEnv failingMarshal sampleReport false "" ⟨[107, 101, 112, 116], none⟩).writeFailed
        = false :=
  marshal_failure_writes_nothing sampleEnv failingMarshal sampleReport false ""
    ⟨[107, 101, 112, 116], none⟩ "xml: unsupported type" rfl

/-! ## Determinism -/

theorem buildState_of_override (env : Env) (pkgs : List parser.Package) :
    ∀ st : BuildState, st.goVersion ≠ "" →
      (pkgs.foldl (convertPackage env) st).goVersion = st.goVersion ∧
      (pkgs.foldl (convertPackage env) st).versionCalls = st.versionCalls := by
  induction pkgs with
  | nil => intro st _; simp
  | cons p rest ih =>
    intro st h
    have hg : (convertPackage env st p).goVersion = st.goVersion := by
      simp [convertPackage, h]
    have hc : (convertPackage env st p).versionCalls = st.versionCalls := by
      simp [convertPackage, h]
    rw [List.foldl_cons]
    obtain ⟨i1, i2⟩ := ih (convertPackage env st p) (by rw [hg]; exact h)
    exact ⟨by rw [i1, hg], by rw [i2, hc]⟩

theorem versionCalls_of_override (env : Env) (report : parser.Report) (goVersion : String)
    (h : goVersion ≠ "") : (buildState env report goVersion).versionCalls = 0 :=
  (buildState_of_override env report.Packages ⟨⟨[]⟩, goVersion, 0⟩ h).2

/-- C13: with a non-empty `goVersion` override, two invocations on the same report,
flag, override and writer, whatever the environments they run in, build equal
documents and leave equal outcomes: the same bytes in the sink and the same
returned error. -/
theorem deterministic_with_override (env1 env2 : Env)
    (marshal : AllureTestSuites → Except String (List Nat)) (report : parser.Report)
    (noXMLHeader : Bool) (goVersion : String) (w : Sink) (h : goVersion ≠ "") :
    buildDocument env1 report goVersion = buildDocument env2 report goVersion ∧
    (AllureReportXML env1 marshal report noXMLHeader goVersion w).sink.written =
      (AllureReportXML env2 marshal report noXMLHeader goVersion w).sink.written ∧
    AllureReportXML env1 marshal report noXMLHeader goVersion w =
      AllureReportXML env2 marshal report noXMLHeader goVersion w := by
  have hd : buildDocument env1 report goVersion = buildDocument env2 report goVersion := by
    have e1 := buildDocument_eq env1 report goVersion
    have e2 := buildDocument_eq env2 report goVersion
    have hv : effectiveVersion env1 goVersion = effectiveVersion env2 goVersion := by
      simp [effectiveVersion, h]
    rw [hv] at e1
    cases hx : buildDocument env1 report goVersion
    cases hy : buildDocument env2 report goVersion
    rw [hx] at e1
    rw [hy] at e2
    simp only at e1 e2
    rw [e1, e2]
  have hs : (buildState env1 report goVersion).suites =
      (buildState env2 report goVersion).suites := hd
  have hc : (buildState env1 report goVersion).versionCalls =
      (buildState env2 report goVersion).versionCalls := by
    rw [versionCalls_of_override env1 report goVersion h,
      versionCalls_of_override env2 report goVersion h]
  have ho : AllureReportXML env1 marshal report noXMLHeader goVersion w =
      AllureReportXML env2 marshal report noXMLHeader goVersion w := by
    simp only [AllureReportXML, hs, hc]
  exact ⟨hd, by rw [ho], ho⟩

theorem deterministic_with_override_witness :
    buildDocument sampleEnv sampleReport "go1.19" =
      buildDocument ⟨"devel"⟩ sampleReport "go1.19" ∧
    (AllureReportXML sampleEnv sampleMarshal sampleReport false "go1.19" ⟨[], none⟩).sink.written =
      (AllureReportXML ⟨"devel"⟩ sampleMarshal sampleReport false "go1.19" ⟨[], none⟩).sink.written ∧
    AllureReportXML sampleEnv sampleMarshal sampleReport false "go1.19" ⟨[], none⟩ =
      AllureReportXML ⟨"devel"⟩ sampleMarshal sampleReport false "go1.19" ⟨[], none⟩ :=
  deterministic_with_override sampleEnv ⟨"devel"⟩ sampleMarshal sampleReport false "go1.19"
    ⟨[], none⟩ (by decide)

/-! ## The scenario of the specification -/

/-- C14: for the report with the one package `pkg/sub` (coverage `87.5`, a passing
`TestA` of 500 ms, a failing `TestB` of 250 ms with output `assertion failed`,
`at line 5`) the document has the single suite with `Tests = 2`, `Failures = 1`,
the formatted elapsed time of the package, the `go.version` property followed by
`coverage.statements.pct = 87.5`, the case `TestA` with class name `sub`, time
`0.500` and no note, and the case `TestB` with time `0.250` and a failure note
with contents `assertion failed\nat line 5`. -/
theorem scenario_document (env : Env) (goVersion : String) (pkgTime : Int) :
    (buildDocument env (scenarioReport pkgTime) goVersion).Suites =
      [⟨2, 1, formatTime pkgTime, "pkg/sub",
        [⟨"go.version", if goVersion = "" then env.runtimeVersion else goVersion⟩,
         ⟨"coverage.statements.pct", "87.5"⟩],
        [⟨"sub", "TestA", "0.500", none, none⟩,
         ⟨"sub", "TestB", "0.250", none,
           some ⟨"Failed", "", "assertion failed\nat line 5"⟩⟩]⟩] := by
  have hcn : classnameOf "pkg/sub" = "sub" := by decide
  have hA : formatTime 500 = "0.500" := by decide
  have hB : formatTime 250 = "0.250" := by decide
  have hj : stringsJoin ["assertion failed", "at line 5"] "\n" =
      "assertion failed\nat line 5" := by decide
  have hf : failCount
      [(⟨"TestA", 500, parser.Result.PASS, []⟩ : parser.Test),
       ⟨"TestB", 250, parser.Result.FAIL, ["assertion failed", "at line 5"]⟩] = 1 := by
    decide
  have hp : propertiesOf (effectiveVersion env goVersion)
      ⟨"pkg/sub", pkgTime, "87.5",
        [⟨"TestA", 500, parser.Result.PASS, []⟩,
         ⟨"TestB", 250, parser.Result.FAIL, ["assertion failed", "at line 5"]⟩]⟩ =
      [⟨"go.version", if goVersion = "" then env.runtimeVersion else goVersion⟩,
       ⟨"coverage.statements.pct", "87.5"⟩] := by
    simp [propertiesOf, effectiveVersion]
  rw [buildDocument_eq]
  simp only [scenarioReport, List.map_cons, List.map_nil, suiteOf, hp, hf, hcn, caseOf, hA, hB,
    hj, List.length_cons, List.length_nil]
  simp

/-! ## Class names, continued -/

/-- C15: deriving the class name from a derived class name gives that class name
again. -/
theorem classname_idempotent (s : String) :
    classnameOf (classnameOf s) = classnameOf s := by
  by_cases h : '/' ∈ s.data
  · exact classnameOf_no_separator _ (classnameOf_separator s h).2
  · have e := classnameOf_no_separator s h
    rw [e, e]

theorem lastIndexChars_append_self (c : Char) (l : List Char) :
    lastIndexChars (l ++ [c]) c = (l.length : Int) := by
  induction l with
  | nil => simp [lastIndexChars]
  | cons x xs ih =>
    show lastIndexChars (x :: (xs ++ [c])) c = _
    simp only [lastIndexChars, List.length_cons]
    rw [ih, if_pos (by omega)]
    push_cast
    rfl

theorem classnameOf_trailing_separator (pre : String) : classnameOf (pre ++ "/") = "" := by
  have hd : (pre ++ "/").data = pre.data ++ ['/'] := by simp [String.data_append]
  have hi : lastIndexChars (pre ++ "/").data '/' = (pre.data.length : Int) := by
    rw [hd, lastIndexChars_append_self]
  have hl : ((pre ++ "/").length : Int) = (pre.data.length : Int) + 1 := by
    show (((pre ++ "/").data.length : Nat) : Int) = _
    rw [hd]
    simp
  unfold classnameOf stringsLastIndex sliceFrom
  simp only
  rw [if_pos ⟨by omega, by omega⟩, hi, hd]
  have : ((pre.data.length : Int) + 1).toNat = pre.data.length + 1 := by omega
  rw [this]
  apply String.ext
  simp

/-- C18: the class name of a package name has no `/`, and the package name is some
prefix followed by the class name; a name that ends with `/` gives the empty class
name; and the index found by `strings.LastIndex` is always below the length of the
name, so the guard `idx < len(pkg.Name)` excludes nothing. -/
theorem classname_is_separator_free_suffix (s : String) :
    '/' ∉ (classnameOf s).data ∧
    (∃ pre : String, s = pre ++ classnameOf s) ∧
    (∀ pre : String, classnameOf (pre ++ "/") = "") ∧
    stringsLastIndex s '/' < (s.length : Int) := by
  refine ⟨?_, ?_, classnameOf_trailing_separator, lastIndexChars_lt '/' s.data⟩
  · by_cases h : '/' ∈ s.data
    · exact (classnameOf_separator s h).2
    · rw [classnameOf_no_separator s h]; exact h
  · by_cases h : '/' ∈ s.data
    · obtain ⟨pre, hpre⟩ := (classnameOf_separator s h).1
      exact ⟨pre ++ "/", hpre⟩
    · exact ⟨"", by rw [classnameOf_no_separator s h]; simp⟩

/-! ## The environment -/

theorem buildState_of_fallback (env : Env) (pkg : parser.Package)
    (rest : List parser.Package) (hv : env.runtimeVersion ≠ "") :
    ((pkg :: rest).foldl (convertPackage env) ⟨⟨[]⟩, "", 0⟩).versionCalls = 1 := by
  rw [List.foldl_cons]
  have hg : (convertPackage env ⟨⟨[]⟩, "", 0⟩ pkg).goVersion = env.runtimeVersion := by
    simp [convertPackage]
  have hc : (convertPackage env ⟨⟨[]⟩, "", 0⟩ pkg).versionCalls = 1 := by
    simp [convertPackage]
  rw [(buildState_of_override env rest _ (by rw [hg]; exact hv)).2, hc]

theorem AllureReportXML_versionCalls (env : Env)
    (marshal : AllureTestSuites → Except String (List Nat)) (report : parser.Report)
    (noXMLHeader : Bool) (goVersion : String) (w : Sink) :
    (AllureReportXML env marshal report noXMLHeader goVersion w).versionCalls =
      (buildState env report goVersion).versionCalls := by
  unfold AllureReportXML
  simp only
  cases marshal (buildState env report goVersion).suites <;> rfl

/-- C17: with a non-empty `goVersion` the call never asks `runtime.Version`; with an
empty `goVersion` and a provider that reports a non-empty version, the call asks
exactly once when the report has at least one package and not at all when it has
none. -/
theorem version_provider_calls (env : Env)
    (marshal : AllureTestSuites → Except String (List Nat)) (report : parser.Report)
    (noXMLHeader : Bool) (goVersion : String) (w : Sink) :
    (goVersion ≠ "" →
      (AllureReportXML env marshal report noXMLHeader goVersion w).versionCalls = 0) ∧
    (goVersion = "" → env.runtimeVersion ≠ "" →
      (report.Packages ≠ [] →
        (AllureReportXML env marshal report noXMLHeader goVersion w).versionCalls = 1) ∧
      (report.Packages = [] →
        (AllureReportXML env marshal report noXMLHeader goVersion w).versionCalls = 0)) := by
  rw [AllureReportXML_versionCalls]
  refine ⟨versionCalls_of_override env report goVersion, ?_⟩
  intro hg hv
  subst hg
  constructor
  · intro hne
    unfold buildState
    cases hps : report.Packages with
    | nil => exact absurd hps hne
    | cons p rest => exact buildState_of_fallback env p rest hv
  · intro he
    simp [buildState, he]

theorem version_provider_calls_witness :
    (AllureReportXML sampleEnv sampleMarshal sampleReport false "go1.19" ⟨[], none⟩).versionCalls
        = 0 ∧
    (AllureReportXML sampleEnv sampleMarshal sampleReport false "" ⟨[], none⟩).versionCalls
        = 1 ∧
    (AllureReportXML sampleEnv sampleMarshal ⟨[]⟩ false "" ⟨[], none⟩).versionCalls = 0 :=
  ⟨(version_provider_calls sampleEnv sampleMarshal sampleReport false "go1.19" ⟨[], none⟩).1
      (by decide),
   ((version_provider_calls sampleEnv sampleMarshal sampleReport false "" ⟨[], none⟩).2 rfl
      (by decide)).1 (by decide),
   ((version_provider_calls sampleEnv sampleMarshal ⟨[]⟩ false "" ⟨[], none⟩).2 rfl
      (by decide)).2 rfl⟩

/-! ## The failure counter -/

theorem failure_notes_of_cases (classname : String) (tests : List parser.Test) :
    ((tests.map (caseOf classname)).filter (fun tc => tc.Failure.isSome)).length =
      failCount tests := by
  unfold failCount
  induction tests with
  | nil => rfl
  | cons t rest ih =>
    cases hres : t.Result <;> simp [caseOf, hres] at ih ⊢ <;> exact ih

/-- C19: in every suite of the document `0 ≤ Failures ≤ Tests`, and `Failures` is
the number of cases of the suite that carry a failure note. -/
theorem failures_bounded_and_counted (env : Env) (report : parser.Report)
    (goVersion : String) :
    ∀ ts ∈ (buildDocument env report goVersion).Suites,
      0 ≤ ts.Failures ∧ ts.Failures ≤ ts.Tests ∧
      ts.Failures = (ts.TestCases.filter (fun tc => tc.Failure.isSome)).length := by
  intro ts hts
  rw [buildDocument_eq, List.mem_map] at hts
  obtain ⟨pkg, _, rfl⟩ := hts
  refine ⟨Nat.zero_le _, ?_, ?_⟩
  · exact List.length_filter_le _ _
  · exact (failure_notes_of_cases (classnameOf pkg.Name) pkg.Tests).symm

theorem failures_bounded_and_counted_witness :
    0 ≤ (suiteOf "go1.21.0"
      ⟨"pkg/sub", 750, "87.5",
        [⟨"TestA", 500, parser.Result.PASS, []⟩,
         ⟨"TestB", 250, parser.Result.FAIL, ["assertion failed", "at line 5"]⟩,
         ⟨"TestC", 0, parser.Result.SKIP, ["not today"]⟩]⟩).Failures ∧
    (suiteOf "go1.21.0"
      ⟨"pkg/sub", 750, "87.5",
        [⟨"TestA", 500, parser.Result.PASS, []⟩,
         ⟨"TestB", 250, parser.Result.FAIL, ["assertion failed", "at line 5"]⟩,
         ⟨"TestC", 0, parser.Result.SKIP, ["not today"]⟩]⟩).Failures ≤ 3 ∧
    (suiteOf "go1.21.0"
      ⟨"pkg/sub", 750, "87.5",
        [⟨"TestA", 500, parser.Result.PASS, []⟩,
         ⟨"TestB", 250, parser.Result.FAIL, ["assertion failed", "at line 5"]⟩,
         ⟨"TestC", 0, parser.Result.SKIP, ["not today"]⟩]⟩).Failures = 1 :=
  failures_bounded_and_counted sampleEnv sampleReport ""
    (suiteOf "go1.21.0"
      ⟨"pkg/sub", 750, "87.5",
        [⟨"TestA", 500, parser.Result.PASS, []⟩,
         ⟨"TestB", 250, parser.Result.FAIL, ["assertion failed", "at line 5"]⟩,
         ⟨"TestC", 0, parser.Result.SKIP, ["not today"]⟩]⟩)
    (by rw [buildDocument_eq]; exact List.mem_map.mpr ⟨_, List.mem_singleton.mpr rfl, rfl⟩)

end Allure
